import Mathlib

/-!
Shallow embedding of the JSON editor block's editor-synchronization logic.

The embedded source consists of:
- `useDebounced` (generation-counted debounce hook),
- the `Monaco` wrapper component (library loading, widget creation, value
  synchronization, marker diffing via `markersMatch`),
- the `EditorGuard` change handler that persists edits back to the record.

Stateful React code is embedded as explicit state passing: each effect or
event-handler body becomes a function from the state it reads to the state it
writes, paired with the list of callback invocations it performs, and
sequences of events are folded over those step functions.
-/

namespace JsonEditor

/-- Diagnostic marker as consumed by `markersMatch`: the five fields the
comparison reads (`startLineNumber`, `startColumn`, `endLineNumber`,
`endColumn`, `message`). -/
structure Marker where
  startLineNumber : Int
  startColumn : Int
  endLineNumber : Int
  endColumn : Int
  message : String
deriving DecidableEq, Repr

/-- Field-wise comparison of two markers, mirroring the conjunction inside the
`every` callback of `markersMatch`. -/
def markerFieldsEq (aMarker bMarker : Marker) : Bool :=
  aMarker.startLineNumber == bMarker.startLineNumber &&
  aMarker.startColumn == bMarker.startColumn &&
  aMarker.endLineNumber == bMarker.endLineNumber &&
  aMarker.endColumn == bMarker.endColumn &&
  aMarker.message == bMarker.message

/-- Embeds `markersMatch(aMarkers, bMarkers)`: false when the lengths differ,
otherwise `every` over the indices, comparing `aMarkers[index]` with
`bMarkers[index]` field by field. -/
def markersMatch (aMarkers bMarkers : List Marker) : Bool :=
  if aMarkers.length != bMarkers.length then
    false
  else
    (List.range aMarkers.length).all fun index =>
      match aMarkers.get? index, bMarkers.get? index with
      | some aMarker, some bMarker => markerFieldsEq aMarker bMarker
      | _, _ => false

theorem markerFieldsEq_iff (a b : Marker) :
    markerFieldsEq a b = true ↔
      (a.startLineNumber = b.startLineNumber ∧ a.startColumn = b.startColumn ∧
        a.endLineNumber = b.endLineNumber ∧ a.endColumn = b.endColumn ∧
        a.message = b.message) := by
  simp [markerFieldsEq, Bool.and_eq_true, and_assoc]

/-- Claim C9: `markersMatch a b` returns true iff `a` and `b` have the same
length and, at every index, the two markers agree on all five fields
`startLineNumber`, `startColumn`, `endLineNumber`, `endColumn`, `message`.
Equality of the underlying list instances is irrelevant; a single differing
field at some index, or reordered markers (which differ field-wise at some
index), yield false. -/
theorem markersMatch_iff (a b : List Marker) :
    markersMatch a b = true ↔
      (a.length = b.length ∧
        ∀ i, (hia : i < a.length) → (hib : i < b.length) →
          (a.get ⟨i, hia⟩).startLineNumber = (b.get ⟨i, hib⟩).startLineNumber ∧
          (a.get ⟨i, hia⟩).startColumn = (b.get ⟨i, hib⟩).startColumn ∧
          (a.get ⟨i, hia⟩).endLineNumber = (b.get ⟨i, hib⟩).endLineNumber ∧
          (a.get ⟨i, hia⟩).endColumn = (b.get ⟨i, hib⟩).endColumn ∧
          (a.get ⟨i, hia⟩).message = (b.get ⟨i, hib⟩).message) := by
  constructor
  · intro h
    unfold markersMatch at h
    split at h
    · exact absurd h Bool.false_ne_true
    · rename_i hcond
      have hlen : a.length = b.length := by
        simpa [bne_iff_ne, not_not] using hcond
      refine ⟨hlen, fun i hia hib => ?_⟩
      rw [List.all_eq_true] at h
      have hmem := h i (List.mem_range.mpr hia)
      rw [List.get?_eq_get hia, List.get?_eq_get hib] at hmem
      exact (markerFieldsEq_iff _ _).mp hmem
  · rintro ⟨hlen, h⟩
    unfold markersMatch
    have hcond : (a.length != b.length) = false := by
      simp [hlen]
    rw [hcond]
    simp only [Bool.false_eq_true, if_false, List.all_eq_true, List.mem_range]
    intro i hia
    have hib : i < b.length := hlen ▸ hia
    rw [List.get?_eq_get hia, List.get?_eq_get hib]
    exact (markerFieldsEq_iff _ _).mpr (h i hia hib)

/-- Witness for C9: two distinct list instances holding field-wise identical
markers in the same order compare equal under `markersMatch`. -/
theorem markersMatch_iff_witness :
    markersMatch [⟨1, 2, 3, 4, "msg"⟩] [⟨1, 2, 3, 4, "msg"⟩] = true :=
  (markersMatch_iff [⟨1, 2, 3, 4, "msg"⟩] [⟨1, 2, 3, 4, "msg"⟩]).mpr
    ⟨rfl, by decide⟩

/-! ## useDebounced

`useDebounced(fn, changeDelay, deps)` keeps a mutable `count` ref and, on each
(re)creation of the memoized debounced function, runs
`const id = (count.current += 1)` and wraps `fn` in a guard that returns
without side effects when `id !== count.current` at the moment the delayed
call fires. The wrapped guard is handed to lodash `debounce` with delay
`changeDelay`. -/

/-- Embeds the `useMemo` body of `useDebounced`: incrementing the shared
`count` ref and capturing the new value as the immutable `id` binding.
Returns `(id, new count)`. -/
def createDebounced (countCurrent : Nat) : Nat × Nat :=
  let id := countCurrent + 1
  (id, id)

/-- Value of the shared `count` ref after `n` further debounced-function
creations starting from `countCurrent`. -/
def countAfter (countCurrent : Nat) : Nat → Nat
  | 0 => countCurrent
  | n + 1 => countAfter (createDebounced countCurrent).2 n

/-- Embeds the wrapper executed when a scheduled debounced call fires, with
`id` the generation captured at creation and `countCurrent` the shared
counter's value at fire time: `some (fn args)` when the wrapped `fn` is
invoked, `none` when the guard `id !== count.current` suppresses the call. -/
def debouncedFire (fn : α → β) (id countCurrent : Nat) (args : α) : Option β :=
  if id != countCurrent then
    none
  else
    some (fn args)

/-- Embeds lodash's trailing-edge `debounce` over a timed call sequence: each
call at time `t` schedules a fire at `t + delay`, superseded whenever the next
call arrives before that moment. Returns the list of fires as
`(fire time, args)` pairs. -/
def debounceFires (delay : Nat) : List (Nat × α) → List (Nat × α)
  | [] => []
  | [(t, a)] => [(t + delay, a)]
  | (t, a) :: (t', a') :: rest =>
    if t + delay ≤ t' then
      (t + delay, a) :: debounceFires delay ((t', a') :: rest)
    else
      debounceFires delay ((t', a') :: rest)

/-- Invocations of the underlying `fn` over a timed call sequence to a
function produced by `useDebounced`: the fires lodash delivers, filtered
through the generation guard. -/
def underlyingInvocations (fn : α → β) (delay id countCurrent : Nat)
    (calls : List (Nat × α)) : List (Nat × β) :=
  (debounceFires delay calls).filterMap fun ta =>
    (debouncedFire fn id countCurrent ta.2).map fun b => (ta.1, b)

theorem countAfter_eq (c n : Nat) : countAfter c n = c + n := by
  induction n generalizing c with
  | zero => rfl
  | succ n ih =>
    rw [countAfter, createDebounced, ih]
    omega

/-- Claim C1: once a newer debounced function has been created from the same
hook instance (`n ≥ 1` supersessions, each incrementing the shared counter),
a pending delayed call of the older function produces no observable effect
when it fires: the captured generation `id` no longer equals the current
counter and the wrapped `fn` is not invoked, for every argument. -/
theorem debouncedFire_superseded_noop (fn : α → β) (id n : Nat) (args : α)
    (h : 0 < n) :
    id ≠ countAfter id n ∧ debouncedFire fn id (countAfter id n) args = none := by
  have hne : id ≠ countAfter id n := by
    rw [countAfter_eq]
    omega
  refine ⟨hne, ?_⟩
  unfold debouncedFire
  rw [if_pos (bne_iff_ne.mpr hne)]

/-- Witness for C1 at a concrete input: one supersession after creation with
generation id 1 silently drops a pending call carrying argument 0. -/
theorem debouncedFire_superseded_noop_witness :
    0 < 1 ∧ (1 ≠ countAfter 1 1 ∧
      debouncedFire (fun x : Nat => x + 10) 1 (countAfter 1 1) 0 = none) :=
  ⟨by decide, debouncedFire_superseded_noop (fun x : Nat => x + 10) 1 1 0 (by decide)⟩

theorem debounceFires_burst (delay : Nat) (c : Nat × α) (calls : List (Nat × α))
    (h : List.Chain (fun p q => p.1 ≤ q.1 ∧ q.1 < p.1 + delay) c calls) :
    debounceFires delay (c :: calls) =
      [(((c :: calls).getLast (List.cons_ne_nil c calls)).1 + delay,
        ((c :: calls).getLast (List.cons_ne_nil c calls)).2)] := by
  induction calls generalizing c with
  | nil => rfl
  | cons c' rest ih =>
    rcases h with _ | ⟨⟨-, hlt⟩, hchain⟩
    rw [List.getLast_cons (List.cons_ne_nil c' rest)]
    rw [debounceFires, if_neg (by omega)]
    exact ih c' hchain

/-- Claim C7: for every sequence of at least two timed calls to a function
produced by `useDebounced` with delay `delay`, consecutive calls ordered in
time and each arriving within a window shorter than `delay` of the previous
one, and with the debounced function not superseded (`id = countCurrent`),
exactly one invocation of the underlying `fn` occurs, carrying the arguments
of the last call. -/
theorem debounce_burst_single_invocation (fn : α → β) (delay id countCurrent : Nat)
    (calls : List (Nat × α)) (last : Nat × α)
    (hlen : 2 ≤ calls.length)
    (hchain : List.Chain' (fun p q => p.1 ≤ q.1 ∧ q.1 < p.1 + delay) calls)
    (hlast : calls.getLast? = some last)
    (hid : id = countCurrent) :
    underlyingInvocations fn delay id countCurrent calls =
      [(last.1 + delay, fn last.2)] := by
  match calls, hlen with
  | c :: rest, _ =>
    have hchain' : List.Chain (fun p q => p.1 ≤ q.1 ∧ q.1 < p.1 + delay) c rest :=
      hchain
    have hfires := debounceFires_burst delay c rest hchain'
    have hlast' : (c :: rest).getLast (List.cons_ne_nil c rest) = last := by
      rwa [List.getLast?_eq_getLast (c :: rest) (List.cons_ne_nil c rest),
        Option.some_inj] at hlast
    rw [underlyingInvocations, hfires, hlast']
    rw [List.filterMap]
    rw [debouncedFire, if_neg (by simp [hid])]
    rfl

/-- Witness for C7 at a concrete input: two calls 100 ms apart under a 500 ms
delay yield exactly one underlying invocation, at time 600 with the second
call's argument. -/
theorem debounce_burst_single_invocation_witness :
    underlyingInvocations (fun n : Nat => n + 1) 500 1 1 [(0, 5), (100, 7)] =
      [(600, 8)] :=
  debounce_burst_single_invocation (fun n : Nat => n + 1) 500 1 1
    [(0, 5), (100, 7)] (100, 7) (by decide)
    (List.chain'_cons.mpr ⟨⟨by decide, by decide⟩, List.chain'_singleton _⟩)
    rfl rfl

/-! ## Monaco component: widget state and value synchronization

The widget instance created by `monaco.editor.create` is modelled as a buffer
string plus an abstract cursor position. `editor.setValue(v)` replaces the
buffer and resets the cursor (the documented hard-overwrite behavior of the
widget). The component's `valueRef` is a mutable ref initialized with the
`value` prop of the first render and thereafter written only by the
model-content change handler. -/

/-- Widget instance state: the buffer (`editor.getValue()`) and an abstract
cursor position, reset by `editor.setValue`. -/
structure EditorState where
  buffer : String
  cursor : Nat
deriving DecidableEq, Repr

/-- Embeds the `useLayoutEffect([editor, value])` body that syncs the external
`value` prop into the widget: return early when the editor does not exist,
then return early when `valueRef.current === value`, otherwise
`editor.setValue(value)`. Result: the widget state after the pass, the
`valueRef` after the pass (the effect never writes it), and the list of
`setValue` invocations performed. -/
def syncLayoutEffect (editor : Option EditorState) (valueRefCurrent value : String) :
    Option EditorState × String × List String :=
  match editor with
  | none => (none, valueRefCurrent, [])
  | some ed =>
    if valueRefCurrent == value then
      (some ed, valueRefCurrent, [])
    else
      (some { buffer := value, cursor := 0 }, valueRefCurrent, [value])

/-- Claim C2: when the widget exists and the incoming `value` prop equals the
last-known internal content `valueRef.current`, the external-value sync pass
performs no write: `setValue` is not called and the widget's buffer and
cursor state are left unchanged. -/
theorem syncLayoutEffect_equal_noop (editor : Option EditorState)
    (ed : EditorState) (valueRefCurrent value : String)
    (hed : editor = some ed) (heq : valueRefCurrent = value) :
    syncLayoutEffect editor valueRefCurrent value = (some ed, valueRefCurrent, []) := by
  subst hed heq
  rw [syncLayoutEffect]
  rw [if_pos (beq_iff_eq.mpr rfl)]

/-- Witness for C2 at a concrete input: syncing an unchanged value into an
existing widget leaves everything untouched and performs no `setValue`. -/
theorem syncLayoutEffect_equal_noop_witness :
    syncLayoutEffect (some ⟨"{}", 1⟩) "{}" "{}" = (some ⟨"{}", 1⟩, "{}", []) :=
  syncLayoutEffect_equal_noop (some ⟨"{}", 1⟩) ⟨"{}", 1⟩ "{}" "{}" rfl rfl

/-- Value of `valueRef.current` after a sequence of re-renders with new
`value` props occurring while the editor does not yet exist (the library load
has not completed): each render's sync layout effect runs with `editor`
null. `useRef(value)` keeps its initial value across renders, and no
model-content change events can occur before the widget exists. -/
def preCreationValueRef (initialValue : String) (laterValues : List String) : String :=
  laterValues.foldl (fun vr v => (syncLayoutEffect none vr v).2.1) initialValue

/-- Embeds the `useEffect([monaco])` body creating the widget:
`monaco.editor.create(rootRef.current, \x7bscrollBeyondLastLine: false,
value: valueRef.current\x7d)`, seeding the buffer with `valueRef.current`
read at creation time. -/
def createEditor (valueRefCurrent : String) : EditorState :=
  { buffer := valueRefCurrent, cursor := 0 }

theorem preCreationValueRef_eq (initialValue : String) (laterValues : List String) :
    preCreationValueRef initialValue laterValues = initialValue := by
  induction laterValues with
  | nil => rfl
  | cons v rest ih => exact ih

/-- Counterexample for C5: mounted with value "A", the prop changes to "B"
before the library load completes, and the widget is then created seeded with
"A" — the stale value captured at the first render — not the latest render's
value "B" as the claim states. -/
theorem editor_seed_stale_value :
    (createEditor (preCreationValueRef "A" ["B"])).buffer = "A" ∧
      (createEditor (preCreationValueRef "A" ["B"])).buffer ≠ "B" := by
  constructor
  · rfl
  · decide

/-- Claim C5 (amended): the widget is seeded with `valueRef.current` read at
creation time, and when the `value` prop changes between mount and widget
creation this is the value of the first (mount-time) render — the sync layout
effect returns early while the editor is null and never updates the ref — so
the first buffer content is the mount-time value for every sequence of
intermediate renders; any divergence from the current prop is reconciled only
by the subsequent sync pass. -/
theorem editor_seeded_with_mount_value (initialValue : String)
    (laterValues : List String) :
    (createEditor (preCreationValueRef initialValue laterValues)).buffer =
      initialValue := by
  rw [preCreationValueRef_eq]
  rfl

/-! ## Monaco component: model-content change events -/

/-- Embeds the `onDidChangeModelContent` subscription body: read
`editor.getValue()`, assign it to `valueRef.current`, then call
`onChange(newValue)` — in that order, synchronously. Result: the new
`valueRef` and the `onChange` invocations performed. -/
def contentChangeHandler (editor : EditorState) (_valueRefCurrent : String) :
    String × List String :=
  let newValue := editor.buffer
  (newValue, [newValue])

/-- Runs a sequence of model-content change events: each event updates the
widget buffer to the emitted content and then runs the subscription handler.
Result: final widget state, final `valueRef`, and all `onChange` invocations
in order. -/
def processContentChanges (editor : EditorState) (valueRefCurrent : String) :
    List String → EditorState × String × List String
  | [] => (editor, valueRefCurrent, [])
  | c :: rest =>
    let ed' : EditorState := { editor with buffer := c }
    let h := contentChangeHandler ed' valueRefCurrent
    let next := processContentChanges ed' h.1 rest
    (next.1, next.2.1, h.2 ++ next.2.2)

/-- Claim C8: over any sequence of model-content change events, the handler
invokes `onChange` exactly once per emitted change, with the emitted content,
in emission order (no debouncing), and leaves `valueRef.current` equal to the
content of the last change (the initial ref value when there were none). -/
theorem contentChanges_delivered_in_order (editor : EditorState)
    (valueRefCurrent : String) (changes : List String) :
    (processContentChanges editor valueRefCurrent changes).2.2 = changes ∧
      (processContentChanges editor valueRefCurrent changes).2.1 =
        changes.getLastD valueRefCurrent := by
  induction changes generalizing editor valueRefCurrent with
  | nil => exact ⟨rfl, rfl⟩
  | cons c rest ih =>
    rcases ih { editor with buffer := c } c with ⟨h1, h2⟩
    refine ⟨?_, ?_⟩
    · rw [processContentChanges]
      rw [show (contentChangeHandler { editor with buffer := c } valueRefCurrent).2
          = [c] from rfl] at *
      rw [show (contentChangeHandler { editor with buffer := c } valueRefCurrent).1
          = c from rfl] at *
      rw [h1]
      rfl
    · rw [processContentChanges]
      rw [show (contentChangeHandler { editor with buffer := c } valueRefCurrent).1
          = c from rfl] at *
      rw [List.getLastD_cons, ← h2]

/-! ## Monaco component: decoration events and diagnostics reporting

The `onDidChangeModelDecorations` subscription reads the model's mode id
(null when the model is gone), returns unless it is "json", recomputes the
marker list via `getModelMarkers`, returns when `markersMatch(errors,
newErrors)` holds against the stored `errors` state, and otherwise calls
`setErrors(newErrors)`. The separate `useEffect([errors, onSyntaxError])`
relays each change of the stored `errors` state to `onSyntaxError` exactly
once (`onSyntaxError` is the stable `setErrors` setter passed by
`EditorGuard`, so the effect re-runs only when `errors` changes), so the
`setErrors` calls below are exactly the `onSyntaxError` invocations caused by
the event sequence. -/

/-- Embeds the `onDidChangeModelDecorations` subscription body for one event:
`modeId` is `model && model.getModeId()` and `newMarkers` the list
`getModelMarkers` would recompute. Result: the stored `errors` state after
the event and the list of `setErrors` calls performed. -/
def decorationsHandler (modeId : Option String) (errors newMarkers : List Marker) :
    List Marker × List (List Marker) :=
  match modeId with
  | none => (errors, [])
  | some m =>
    if m != "json" then
      (errors, [])
    else if markersMatch errors newMarkers then
      (errors, [])
    else
      (newMarkers, [newMarkers])

/-- Runs a sequence of decoration-change events, each carrying the mode id
observed and the recomputed marker list, threading the stored `errors` state.
Result: final stored state and all `setErrors` calls in order. -/
def processDecorationEvents (errors : List Marker) :
    List (Option String × List Marker) → List Marker × List (List Marker)
  | [] => (errors, [])
  | (modeId, markers) :: rest =>
    let step := decorationsHandler modeId errors markers
    let next := processDecorationEvents step.1 rest
    (next.1, step.2 ++ next.2)

/-- Claim C3: over any sequence of decoration-change events whose recomputed
marker list is unchanged — every event that reaches the recomputation (mode
id "json") has `markersMatch` return true against the stored errors — the
stored list never changes and no `setErrors` call, hence no `onSyntaxError`
invocation, occurs during the sequence. -/
theorem decorationEvents_unchanged_no_callback (errors : List Marker)
    (events : List (Option String × List Marker))
    (h : ∀ p ∈ events, p.1 = some "json" → markersMatch errors p.2 = true) :
    processDecorationEvents errors events = (errors, []) := by
  induction events with
  | nil => rfl
  | cons p rest ih =>
    have hstep : decorationsHandler p.1 errors p.2 = (errors, []) := by
      rcases p with ⟨modeId, markers⟩
      match modeId with
      | none => rfl
      | some m =>
        rw [decorationsHandler]
        by_cases hm : (m != "json") = true
        · rw [if_pos hm]
        · have hmode : m = "json" := by
            simpa [bne_iff_ne, not_not] using hm
          rw [if_neg hm,
            if_pos (h (some m, markers) (List.mem_cons_self _ _) (by rw [hmode]))]
    have hrest : processDecorationEvents errors rest = (errors, []) :=
      ih fun q hq hj => h q (List.mem_cons_of_mem p hq) hj
    rcases p with ⟨modeId, markers⟩
    rw [processDecorationEvents]
    rw [hstep]
    rw [hrest]
    rfl

/-- Witness for C3 at a concrete input: three events — a matching "json"
recomputation, a null model, and another matching recomputation — leave the
stored list unchanged and trigger no callback. -/
theorem decorationEvents_unchanged_no_callback_witness :
    processDecorationEvents [⟨1, 2, 3, 4, "e"⟩]
        [(some "json", [⟨1, 2, 3, 4, "e"⟩]), (none, []),
          (some "json", [⟨1, 2, 3, 4, "e"⟩])] =
      ([⟨1, 2, 3, 4, "e"⟩], []) :=
  decorationEvents_unchanged_no_callback [⟨1, 2, 3, 4, "e"⟩]
    [(some "json", [⟨1, 2, 3, 4, "e"⟩]), (none, []),
      (some "json", [⟨1, 2, 3, 4, "e"⟩])]
    (by decide)

/-! ## Monaco component: library loading

`loadMonacoAsync` fetches the style sheet and the three scripts sequentially;
the scripts install the process-wide global `window.monaco`, and the promise
resolves to it. The load effect `useEffect([monaco, onLoad])` reads only the
instance's OWN `monaco` state: it calls `onLoad()` and returns when that
state is set, and otherwise calls `loadMonacoAsync()`. The instance state is
seeded from `window.monaco` once, by `useState(window.monaco)` at mount, and
is updated only when that instance's own `loadMonacoAsync` promise resolves
(`then(loaded => setMonaco(loaded))`); nothing records an in-flight load, and
a completed load elsewhere never flows into an already-mounted instance's
state. -/

/-- Whether one run of the load effect of a single instance initiates
`loadMonacoAsync`, as a function of that instance's own `monaco` state — the
only thing the effect's guard reads: set means the run only signals `onLoad`,
null means it calls `loadMonacoAsync()`. -/
def loadEffectInitiates (instMonaco : Option Unit) : Bool :=
  match instMonaco with
  | some _ => false
  | none => true

/-- Process-wide loading scenario: whether the scripts of some load have
installed `window.monaco`, the per-instance `monaco` states of the mounted
component instances in mount order, and how many times `loadMonacoAsync` has
been initiated. -/
structure LoadScenario where
  windowMonaco : Option Unit
  instances : List (Option Unit)
  loadsInitiated : Nat
deriving DecidableEq, Repr

/-- Events of a loading scenario: `mount` mounts a new instance (seeding its
state from the current `window.monaco` and running its load effect),
`effectRerun i` re-runs instance `i`'s load effect after its
`[monaco, onLoad]` deps changed (for example a fresh `onLoad` identity from a
parent re-render), and `loadResolves i` resolves instance `i`'s pending
`loadMonacoAsync` (its scripts have installed `window.monaco`, and
`setMonaco` fires for that instance alone). -/
inductive LoadEvent
  | mount
  | effectRerun (i : Nat)
  | loadResolves (i : Nat)
deriving DecidableEq, Repr

/-- One step of a loading scenario, with each load-effect run guarded by the
owning instance's own `monaco` state. -/
def stepLoadScenario (st : LoadScenario) : LoadEvent → LoadScenario
  | .mount =>
    { st with
        instances := st.instances ++ [st.windowMonaco],
        loadsInitiated := st.loadsInitiated +
          (if loadEffectInitiates st.windowMonaco then 1 else 0) }
  | .effectRerun i =>
    match st.instances.get? i with
    | none => st
    | some m =>
      { st with
          loadsInitiated := st.loadsInitiated +
            (if loadEffectInitiates m then 1 else 0) }
  | .loadResolves i =>
    { st with
        windowMonaco := some (),
        instances := st.instances.set i (some ()) }

/-- Runs a sequence of load events against a loading scenario. -/
def runLoadScenario (st : LoadScenario) (events : List LoadEvent) : LoadScenario :=
  events.foldl stepLoadScenario st

/-- Counterexample for C4: a second instance mounting while the first
instance's load is still in flight (`window.monaco` not yet installed, so the
new instance's state seeds to null) initiates `loadMonacoAsync` a second
time — the load is not initiated at most once. Moreover the stale instance
keeps initiating even after a load completes: resolving the first load and
then re-running the second instance's effect (its own state still null)
initiates a third load. -/
theorem concurrent_mounts_double_load :
    ¬ (runLoadScenario ⟨none, [], 0⟩ [.mount, .mount]).loadsInitiated ≤ 1 ∧
      (runLoadScenario ⟨none, [], 0⟩
          [.mount, .mount, .loadResolves 0, .effectRerun 1]).loadsInitiated = 3 := by
  constructor
  · decide
  · decide

/-- Claim C4 (amended): the load guard is per-instance, not process-wide: a
load-effect run of an instance whose own `monaco` state is set does not
initiate `loadMonacoAsync` and changes nothing, and an instance mounting
after a load has completed seeds its state from `window.monaco` — observing
the shared result — and does not initiate one either; but an instance whose
own state is still null, such as one mounted while a load was in flight,
initiates `loadMonacoAsync` on every run of its load effect, even after a
load has completed. -/
theorem load_guard_per_instance (st : LoadScenario) (i : Nat) :
    (st.windowMonaco = some () →
      stepLoadScenario st .mount =
        { st with instances := st.instances ++ [some ()] }) ∧
    (st.instances.get? i = some (some ()) →
      stepLoadScenario st (.effectRerun i) = st) := by
  constructor
  · intro h
    rw [stepLoadScenario]
    rw [h]
    rfl
  · intro h
    rw [stepLoadScenario]
    rw [h]
    rfl

/-- Witness for C4 (amended) at a concrete input: with the library installed
and one ready instance, a fresh mount seeds a ready instance without a load,
and an effect re-run of the ready instance changes nothing. -/
theorem load_guard_per_instance_witness :
    stepLoadScenario ⟨some (), [some ()], 1⟩ .mount =
        ⟨some (), [some (), some ()], 1⟩ ∧
      stepLoadScenario ⟨some (), [some ()], 1⟩ (.effectRerun 0) =
        ⟨some (), [some ()], 1⟩ :=
  ⟨(load_guard_per_instance ⟨some (), [some ()], 1⟩ 0).1 rfl,
    (load_guard_per_instance ⟨some (), [some ()], 1⟩ 0).2 rfl⟩

/-! ## Monaco component: onLoad signalling

The load effect has dependency list `[monaco, onLoad]`: it runs at mount and
at every commit where either the `monaco` state or the identity of the
`onLoad` prop differs from the previous commit, and a run invokes `onLoad()`
exactly when `monaco` is set. `EditorGuard` passes a fresh arrow function
`() => setIsLoading(false)` on every render, so its re-renders change the
`onLoad` identity. -/

/-- Dependencies of the load effect at one commit: the `monaco` state and the
identity of the `onLoad` prop. -/
structure LoadEffectInput where
  monaco : Option Unit
  onLoadId : Nat
deriving DecidableEq, Repr

/-- Number of `onLoad` invocations performed by one run of the load effect:
one when the `monaco` state is set, none otherwise. -/
def effectInvokes (r : LoadEffectInput) : Nat :=
  if r.monaco.isSome then 1 else 0

/-- Number of `onLoad` invocations over the commits after the first: the
effect re-runs exactly at commits whose `[monaco, onLoad]` deps differ from
the previous commit. -/
def onLoadAfterFirst (prev : LoadEffectInput) : List LoadEffectInput → Nat
  | [] => 0
  | r :: rest => (if r ≠ prev then effectInvokes r else 0) + onLoadAfterFirst r rest

/-- Number of `onLoad` invocations over a full commit sequence: the effect
always runs at the mount commit, then per `onLoadAfterFirst`. -/
def onLoadInvocations : List LoadEffectInput → Nat
  | [] => 0
  | r :: rest => effectInvokes r + onLoadAfterFirst r rest

/-- Counterexample for C6: the library is already present at mount, and one
re-render with a fresh `onLoad` identity (as `EditorGuard` produces on every
render) re-runs the load effect and invokes `onLoad` a second time — not
exactly once over the instance's lifetime. -/
theorem onLoad_refired_on_identity_change :
    onLoadInvocations [⟨some (), 0⟩, ⟨some (), 1⟩] = 2 ∧
      onLoadInvocations [⟨some (), 0⟩, ⟨some (), 1⟩] ≠ 1 := by
  decide

theorem onLoadAfterFirst_stable (r : LoadEffectInput) (m : Nat) :
    onLoadAfterFirst r (List.replicate m r) = 0 := by
  induction m with
  | zero => rfl
  | succ m ih =>
    rw [List.replicate, onLoadAfterFirst, if_neg (by simp), ih]

theorem onLoadAfterFirst_skip (r : LoadEffectInput) (k : Nat)
    (rest : List LoadEffectInput) :
    onLoadAfterFirst r (List.replicate k r ++ rest) = onLoadAfterFirst r rest := by
  induction k with
  | zero =>
    rw [List.replicate_zero, List.nil_append]
  | succ k ih =>
    rw [List.replicate_succ, List.cons_append, onLoadAfterFirst,
      if_neg (by simp), ih, Nat.zero_add]

/-- Claim C6 (amended): `onLoad` is invoked exactly once over the mounted
instance's lifetime provided the `onLoad` prop identity is stable across
commits — whether the library was already present at mount (`k = 0`, direct
transition to ready) or became available after the asynchronous load
(`k > 0` commits without it); with an unstable identity (as `EditorGuard`
passes, a fresh closure each render) the effect re-runs and re-invokes it. -/
theorem onLoad_once_with_stable_identity (i k m : Nat) :
    onLoadInvocations
        (List.replicate k ⟨none, i⟩ ++ List.replicate (m + 1) ⟨some (), i⟩) = 1 := by
  match k with
  | 0 =>
    rw [List.replicate_zero, List.nil_append, List.replicate_succ,
      onLoadInvocations, onLoadAfterFirst_stable]
    rfl
  | k + 1 =>
    show onLoadInvocations ((⟨none, i⟩ : LoadEffectInput) ::
      (List.replicate k ⟨none, i⟩ ++ List.replicate (m + 1) ⟨some (), i⟩)) = 1
    rw [onLoadInvocations, onLoadAfterFirst_skip, List.replicate_succ,
      onLoadAfterFirst, if_pos (by simp), onLoadAfterFirst_stable]
    rfl

/-! ## EditorGuard: persisting edits -/

/-- Persistence request issued by `table.updateRecordAsync(selectedRecord,
\x7b[selectedField.id]: value\x7d)`. -/
structure UpdateRequest where
  fieldId : String
  value : String
deriving DecidableEq, Repr

/-- Embeds the body of the debounced change handler in `EditorGuard`:
`cellValueAsString` is `selectedRecord.getCellValueAsString(selectedField)`;
the handler returns without effect when the delivered `value` equals it, and
otherwise issues one `updateRecordAsync` request. Result: the requests
issued. -/
def editorGuardOnChange (cellValueAsString fieldId value : String) :
    List UpdateRequest :=
  if value == cellValueAsString then
    []
  else
    [{ fieldId := fieldId, value := value }]

/-- Claim C10: when the delivered value equals the selected record's current
cell value as a string, the handler returns without calling
`updateRecordAsync` — no persistence request is issued and the record is left
unchanged — and `updateRecordAsync` is called (with the delivered value)
exactly when the value differs. -/
theorem editorGuardOnChange_guard (cellValueAsString fieldId value : String) :
    (value = cellValueAsString →
      editorGuardOnChange cellValueAsString fieldId value = []) ∧
    (value ≠ cellValueAsString →
      editorGuardOnChange cellValueAsString fieldId value =
        [{ fieldId := fieldId, value := value }]) := by
  constructor
  · intro heq
    rw [editorGuardOnChange, if_pos (beq_iff_eq.mpr heq)]
  · intro hne
    rw [editorGuardOnChange, if_neg (by simpa [beq_iff_eq] using hne)]

/-- Witness for C10 at concrete inputs: an unchanged value issues no request,
and a changed value issues exactly the one update carrying it. -/
theorem editorGuardOnChange_guard_witness :
    editorGuardOnChange "{}" "fld1" "{}" = [] ∧
      editorGuardOnChange "{}" "fld1" "[1]" =
        [{ fieldId := "fld1", value := "[1]" }] :=
  ⟨(editorGuardOnChange_guard "{}" "fld1" "{}").1 rfl,
    (editorGuardOnChange_guard "{}" "fld1" "[1]").2 (by decide)⟩

end JsonEditor
